import Mathlib

/-!
Verification of the cross-validation orchestrator of
`glum`'s `GeneralizedLinearRegressorCV` (`src/glum/_glm_cv.py`).

The embedding uses rational numbers for all floating-point quantities and
nested lists for numpy arrays.  External collaborators (numpy primitives,
the IRLS solver, the standardizer, the parallel executor) are embedded from
their documented semantics or kept as explicit function parameters: the
theorems below are about the orchestration code, which treats them as
black boxes.
-/

namespace GlumCV

/-! ## Array access helpers -/

/-- Entry `(l, a)` of a two-dimensional nested list, defaulting to `0` out of range. -/
def ent2 (m : List (List ℚ)) (l a : ℕ) : ℚ := (m.getD l []).getD a 0

/-- Entry `(f, l, a)` of a three-dimensional nested list. -/
def ent3 (d : List (List (List ℚ))) (f l a : ℕ) : ℚ := ent2 (d.getD f []) l a

/-! ## numpy primitives, embedded from their documented semantics -/

/-- numpy `np.argmin` on a flat array: the index of the minimum; in case of
multiple occurrences of the minimum value, the index of the first occurrence. -/
def npArgmin (xs : List ℚ) : ℕ :=
  xs.findIdx fun x => xs.all fun y => decide (x ≤ y)

/-- numpy `np.unravel_index` for a two-dimensional shape `(K, A)` in C order. -/
def npUnravel2 (flat A : ℕ) : ℕ × ℕ := (flat / A, flat % A)

/-- Row-major (C order) flattening of a two-dimensional array, as `np.argmin`
performs on a matrix argument. -/
def flatten2 (m : List (List ℚ)) : List ℚ := m.flatten

/-- numpy `ndarray.mean(axis=0)` on a `(F, K, A)` nested list: the elementwise
average over the first axis.  The output shape is read off the first element
(numpy arrays are rectangular). -/
def npMeanAxis0 (ds : List (List (List ℚ))) : List (List ℚ) :=
  match ds with
  | [] => []
  | d0 :: _ =>
    (List.range d0.length).map fun l =>
      (List.range (d0.getD l []).length).map fun a =>
        (ds.map fun d => ent2 d l a).sum / (ds.length : ℚ)

/-! ## Alpha grid construction (`fit`, lines 519-532)

If `self.alphas is None` the grid is generated per `l1_ratio` by
`self._get_alpha_path` (defined in the base class, outside this file's
source, kept abstract here as `autoPath`).  Otherwise the user-supplied list
is sorted ascending by `np.sort`, reversed by `[::-1]`, and tiled by
`np.tile` across all `l1_ratio` values. -/

/-- Descending sort, the embedding of `np.sort(xs)[::-1]`: a stable
ascending sort followed by reversal. -/
def sortDesc (xs : List ℚ) : List ℚ :=
  (List.insertionSort (· ≤ ·) xs).reverse

/-- Lines 519-527: the alpha grid, one row per `l1_ratio`. -/
def buildAlphaGrid (autoPath : ℚ → List ℚ) (userAlphas : Option (List ℚ))
    (l1Ratios : List ℚ) : List (List ℚ) :=
  match userAlphas with
  | none => l1Ratios.map autoPath
  | some us => List.replicate l1Ratios.length (sortDesc us)

/-- The stored `self.alphas_` attribute: one-dimensional when a single
`l1_ratio` is given, two-dimensional otherwise (lines 529-532). -/
inductive StoredAlphas where
  | oneDim : List ℚ → StoredAlphas
  | twoDim : List (List ℚ) → StoredAlphas
deriving DecidableEq

/-- Lines 529-532: `self.alphas_ = alphas[0]` if `len(l1_ratio) == 1`,
else `np.asarray(alphas)`. -/
def storeAlphas (l1Ratios : List ℚ) (grid : List (List ℚ)) : StoredAlphas :=
  if l1Ratios.length = 1 then .oneDim (grid.getD 0 []) else .twoDim grid

/-! ## Hyperparameter selection (`fit`, lines 721-732) -/

structure SelectResult where
  best_l1 : ℕ
  best_alpha : ℕ
  l1_ratio_ : ℚ
  alpha_ : ℚ
deriving DecidableEq

/-- Lines 727-732: `self.alphas_[best_l1, best_alpha]` when more than one
`l1_ratio` was given, `self.alphas_[best_alpha]` otherwise.  The two
cross arms cannot arise from `storeAlphas` and return `0`. -/
def readAlpha (alphas_ : StoredAlphas) (nL1 best_l1 best_alpha : ℕ) : ℚ :=
  if 1 < nL1 then
    match alphas_ with
    | .twoDim g => ent2 g best_l1 best_alpha
    | .oneDim _ => 0
  else
    match alphas_ with
    | .oneDim v => v.getD best_alpha 0
    | .twoDim _ => 0

/-- Lines 721-732: average the deviance path over the fold axis, take the
flattened argmin, unravel it against the row width, and read off the winning
`l1_ratio_` and `alpha_`. -/
def cvSelect (l1Ratios : List ℚ) (alphas_ : StoredAlphas)
    (deviance_path_ : List (List (List ℚ))) : SelectResult :=
  let avg := npMeanAxis0 deviance_path_
  let A := (avg.getD 0 []).length
  let bi := npUnravel2 (npArgmin (flatten2 avg)) A
  { best_l1 := bi.1
    best_alpha := bi.2
    l1_ratio_ := l1Ratios.getD bi.1 0
    alpha_ := readAlpha alphas_ l1Ratios.length bi.1 bi.2 }

/-- Composition of lines 529-532 and 721-732: store the `alphas_` attribute
from the grid and run the selection on the collected deviance path. -/
def fitSelect (l1Ratios : List ℚ) (grid : List (List ℚ))
    (dev : List (List (List ℚ))) : SelectResult :=
  cvSelect l1Ratios (storeAlphas l1Ratios grid) dev

/-! ## Per-fold path job: weight handling (`_fit_path`, lines 562-587) -/

/-- numpy fancy indexing `w[idx]`. -/
def subsetW (w : List ℚ) (idx : List ℕ) : List ℚ := idx.map fun i => w.getD i 0

/-- The in-place division `v /= v.sum()` of lines 567 and 575. -/
def normalizeW (v : List ℚ) : List ℚ := v.map fun x => x / v.sum

/-- A sample-weight vector with every entry belonging to `test_idx`
multiplied by `c` and every other entry unchanged. -/
def scaleOnTest (w : List ℚ) (test_idx : List ℕ) (c : ℚ) : List ℚ :=
  (List.range w.length).map fun i =>
    if i ∈ test_idx then c * w.getD i 0 else w.getD i 0

/-- Lines 562-587 and 647-680 of `_fit_path`, with the external solver and
family collaborators abstracted: the job divides the train weights by their
sum and the test weights by their sum, solves the regularization path on the
normalized train weights, and evaluates the held-out deviance of each path
point with the normalized test weights.  `solvePath` stands for the
composition of `standardize`, `_get_start_coef`,
`_solve_regularization_path` and `unstandardize` on the training slice (the
train weights are the only varying input); `deviance` stands for
`self._family_instance.deviance` composed with the inverse link on the test
slice (coefficient vector and test weights are its varying inputs). -/
def fitPathDeviances (solvePath : List ℚ → List (List ℚ))
    (deviance : List ℚ → List ℚ → ℚ)
    (sample_weight : List ℚ) (train_idx test_idx : List ℕ) : List ℚ :=
  let w_train := normalizeW (subsetW sample_weight train_idx)
  let w_test := normalizeW (subsetW sample_weight test_idx)
  (solvePath w_train).map fun c => deviance c w_test

/-! ## Job list, reshaping and the parallel executor (`fit`, lines 682-719) -/

/-- Lines 682-700: the job list is the Cartesian product of the fold splits
(outer generator loop) and the l1 ratios (inner loop), in generator order. -/
def jobList {α β : Type} (folds : List α) (l1Ratios : List β) : List (α × β) :=
  folds.flatMap fun fd => l1Ratios.map fun l1 => (fd, l1)

/-- numpy `np.reshape` of a flat scalar list to shape `(F, K, A)` in C
order. -/
def reshape3 (xs : List ℚ) (F K A : ℕ) : List (List (List ℚ)) :=
  (List.range F).map fun f =>
    (List.range K).map fun l =>
      (List.range A).map fun a => xs.getD ((f * K + l) * A + a) 0

/-- Lines 714-717: `self.deviance_path_` is the reshape, to shape
`(n_folds, n_l1_ratios, n_alphas)`, of the per-job deviance lists collected
in submission order. -/
def deviancePath {α β : Type} (folds : List α) (l1Ratios : List β)
    (runJob : α × β → List ℚ) (A : ℕ) : List (List (List ℚ)) :=
  reshape3 (((jobList folds l1Ratios).map runJob).flatten)
    folds.length l1Ratios.length A

/-- numpy `np.reshape` of a flat scalar list to shape `(F, K, A, P)` in C
order. -/
def reshape4 (xs : List ℚ) (F K A P : ℕ) : List (List (List (List ℚ))) :=
  (List.range F).map fun f =>
    (List.range K).map fun l =>
      (List.range A).map fun a =>
        (List.range P).map fun p => xs.getD (((f * K + l) * A + a) * P + p) 0

/-- Entry `(f, l, a, p)` of a four-dimensional nested list. -/
def ent4 (d : List (List (List (List ℚ)))) (f l a p : ℕ) : ℚ :=
  (((d.getD f []).getD l []).getD a []).getD p 0

/-- Lines 709-712: `self.coef_path_` is the reshape, to shape
`(n_folds, n_l1_ratios, n_alphas, n_features)` (the feature dimension is
the `-1` numpy infers for rectangular input), of the per-job coefficient
paths — one `(n_alphas, n_features)` matrix per job — collected in
submission order. -/
def coefPath {α β : Type} (folds : List α) (l1Ratios : List β)
    (runJobCoef : α × β → List (List ℚ)) (A P : ℕ) :
    List (List (List (List ℚ))) :=
  reshape4 ((((jobList folds l1Ratios).map runJobCoef).map
      (fun m => m.flatten)).flatten)
    folds.length l1Ratios.length A P

/-- The parallel executor (`joblib.Parallel`, line 702): jobs complete in an
arbitrary order `order`, each worker tags its result with the submission
index of its job, and the collected output is read back in submission
order — the executor returns results in the order submitted, independent of
completion order (§6 collaborator contract). -/
def parallelRun {R : Type} (njobs : ℕ) (runJob : ℕ → R) (order : List ℕ)
    (d : R) : List R :=
  let tagged := order.map fun i => (i, runJob i)
  (List.range njobs).map fun i =>
    ((tagged.find? fun p => decide (p.1 = i)).map Prod.snd).getD d

/-! ## Control-flow trace of `fit` (lines 489-785)

The ordering claims (validation before or after dispatch, solver never
entered) are about which code locations run and in which order.  The trace
below instruments `fit`: each event marks a source location being reached,
and a raised `ValueError` truncates the trace. -/

/-- Code locations of `fit` and `_fit_path`, in the roles relevant to the
error-handling claims. -/
inductive FitEvent where
  /-- Line 489: `self._validate_hyperparameters()`. -/
  | validateHyper
  /-- A `ValueError` escapes `fit`. -/
  | raiseValueError
  /-- Line 499: `self._set_up_and_check_fit_args(...)` (data preparation). -/
  | setupArgs
  /-- Lines 519-532: alpha grid computation and `self.alphas_` assignment. -/
  | computeAlphaGrid
  /-- Line 702: the job generator is handed to `joblib.Parallel` (dispatch). -/
  | dispatch
  /-- `_fit_path` entered for job `j`. -/
  | jobStart (j : ℕ)
  /-- Lines 567/575 executed with a zero divisor (`w.sum() == 0`): numpy
  divides elementwise without raising. -/
  | jobDivideByZeroWeightSum (j : ℕ)
  /-- Lines 602-621: per-job `standardize` on the training slice. -/
  | jobStandardize (j : ℕ)
  /-- Line 627: `self._get_start_coef`. -/
  | jobStartCoef (j : ℕ)
  /-- Line 647: `self._solve_regularization_path` (solver iterations). -/
  | jobSolve (j : ℕ)
  /-- Lines 704-719: collection and reshaping of the path results. -/
  | collectReshape
  /-- Lines 721-732: hyperparameter selection. -/
  | selectBest
  /-- Lines 738-757: full-data `standardize` for the final refit. -/
  | finalStandardize
  /-- Line 763: `self._solve` (final solver iterations). -/
  | finalSolve
deriving DecidableEq

/-- The configuration of one `fit` call, as far as the control flow of the
error-handling claims depends on it.  `p2PosSemidef` abstracts
`is_pos_semidef(P2_no_alpha)` after per-job standardization (the
standardizer and `is_pos_semidef` live outside this file's source). -/
structure FitConfig where
  l1Ratios : List ℚ
  userAlphas : Option (List ℚ)
  check_input : Bool
  p2IsString : Bool
  p2PosSemidef : Bool
  folds : List (List ℕ × List ℕ)
  sample_weight : List ℚ
deriving DecidableEq

/-- `_validate_hyperparameters` (lines 413-426): an explicitly supplied
alphas list with a negative entry, or an l1 ratio outside [0, 1], raises
`ValueError`.  (A non-numeric l1 ratio also raises in the source; every
value of this embedding is numeric.) -/
def hyperparametersInvalid (cfg : FitConfig) : Bool :=
  (match cfg.userAlphas with
   | some us => us.any fun a => decide (a < 0)
   | none => false) ||
  cfg.l1Ratios.any fun l1 => decide (l1 < 0) || decide (1 < l1)

/-- One `_fit_path` job as dispatched, for job index `j` (job `j` works on
fold `j / len(l1_ratio)`: folds are the outer generator loop): weight
normalization first (lines 562-575; a zero weight sum is divided by, not
raised on), then standardization (602-621), start coefficients (627), the
`check_input` positive-semidefiniteness check of P2 (637-645) which raises
`ValueError` before the solver, and otherwise the path solve (647).
Returns the job's events and whether it completed. -/
def jobEvents (cfg : FitConfig) (j : ℕ) : List FitEvent × Bool :=
  let fold := cfg.folds.getD (j / cfg.l1Ratios.length) ([], [])
  let wTrainSum := (subsetW cfg.sample_weight fold.1).sum
  let wTestSum := (subsetW cfg.sample_weight fold.2).sum
  let divEvents : List FitEvent :=
    if wTrainSum = 0 ∨ wTestSum = 0 then [FitEvent.jobDivideByZeroWeightSum j]
    else []
  let pre := FitEvent.jobStart j :: divEvents ++
    [FitEvent.jobStandardize j, FitEvent.jobStartCoef j]
  if cfg.check_input && !cfg.p2IsString && !cfg.p2PosSemidef then
    (pre ++ [FitEvent.raiseValueError], false)
  else
    (pre ++ [FitEvent.jobSolve j], true)

/-- Sequential execution of the dispatched jobs (the default
`n_jobs=None` runs them one by one in submission order); the first raising
job truncates the run, as `joblib` propagates the exception.  When all jobs
complete, collection, selection and the final full-data refit follow. -/
def runJobs (cfg : FitConfig) : List ℕ → List FitEvent
  | [] => [FitEvent.collectReshape, FitEvent.selectBest,
           FitEvent.finalStandardize, FitEvent.finalSolve]
  | j :: rest =>
    let r := jobEvents cfg j
    if r.2 then r.1 ++ runJobs cfg rest else r.1

/-- The instrumented control flow of `fit` (lines 489-785): hyperparameter
validation runs first and a failure escapes before anything else; otherwise
argument setup, the alpha grid, dispatch of the `n_folds * n_l1_ratios`
jobs, the jobs themselves, then collection, selection and the final
refit. -/
def fitEvents (cfg : FitConfig) : List FitEvent :=
  if hyperparametersInvalid cfg then
    [FitEvent.validateHyper, FitEvent.raiseValueError]
  else
    [FitEvent.validateHyper, FitEvent.setupArgs, FitEvent.computeAlphaGrid,
     FitEvent.dispatch] ++
      runJobs cfg (List.range (cfg.folds.length * cfg.l1Ratios.length))

/-- Index of the first occurrence of an event in a trace (the trace length
when absent). -/
def evIdx (tr : List FitEvent) (e : FitEvent) : ℕ :=
  tr.findIdx fun x => decide (x = e)

/-- A concrete configuration with `check_input=True` and a non-string,
non-positive-semidefinite P2: one fold, one l1 ratio. -/
def c5cfg : FitConfig :=
  { l1Ratios := [1]
    userAlphas := some [1]
    check_input := true
    p2IsString := false
    p2PosSemidef := false
    folds := [([0], [1])]
    sample_weight := [1, 1] }

/-- A concrete configuration whose single fold has train partition `[0]`
with total sample weight zero: valid hyperparameters, P2 check passing. -/
def c7cfg : FitConfig :=
  { l1Ratios := [1]
    userAlphas := some [1]
    check_input := true
    p2IsString := false
    p2PosSemidef := true
    folds := [([0], [1])]
    sample_weight := [0, 1] }

/-- A concrete configuration with an l1 ratio outside [0, 1]. -/
def c6cfg : FitConfig :=
  { l1Ratios := [2]
    userAlphas := none
    check_input := true
    p2IsString := true
    p2PosSemidef := true
    folds := [([0], [1])]
    sample_weight := [1, 1] }

/-! ## Final full-data refit (`fit`, lines 734-785) -/

/-- Result of the external `standardize` (`glum._utils`, outside this
file's source): the transformed matrix, the column means and standard
deviations used, and the penalties re-expressed in the transformed
coordinates.  (The transformed bounds and inequality constraints are
omitted: no claim depends on them.) -/
structure StdResult (M : Type) where
  X : M
  col_means : List ℚ
  col_stds : List ℚ
  P1 : List ℚ
  P2 : List (List ℚ)

/-- The external collaborators called by the final refit, kept abstract
(they live outside this file's source): `setup_p1`/`setup_p2` build the
penalty arrays at a given `(alpha, l1_ratio)` (`X` and its dtype are
fixed), `standardize` rescales the data it is given, `startCoef` is
`self._get_start_coef`, `solve` is `self._solve`, and `unstandardize` maps
an intercept and coefficient vector back to the original scale. -/
structure RefitCollab (M : Type) where
  setup_p1 : ℚ → ℚ → List ℚ
  setup_p2 : ℚ → ℚ → List (List ℚ)
  standardize : M → List ℚ → List ℚ → List (List ℚ) → StdResult M
  startCoef : M → List ℚ → List ℚ → List ℚ → List ℚ
  solve : M → List ℚ → List ℚ → List (List ℚ) → List ℚ → List ℚ
  unstandardize : List ℚ → List ℚ → ℚ → List ℚ → ℚ × List ℚ

/-- The mutable attributes of the estimator that the refit writes. -/
structure FitState where
  col_means_ : List ℚ
  col_stds_ : List ℚ
  coef_ : List ℚ
  intercept_ : ℚ

/-- Lines 734-785: rebuild P1 and P2 at the winning `(alpha_, l1_ratio_)`,
standardize the full dataset (the same `X` and `sample_weight` that `fit`
received, no fold slicing), overwrite `self.col_means_`/`self.col_stds_`
with the statistics of that call, compute start coefficients, solve once
with the full standardized data, and unstandardize the solution into
`self.coef_`/`self.intercept_` (intercept slot first when
`fit_intercept`, a zero intercept otherwise). -/
def finalRefit {M : Type} (cb : RefitCollab M) (fit_intercept : Bool)
    (X : M) (sample_weight : List ℚ) (alpha_ l1_ratio_ : ℚ)
    (s : FitState) : FitState :=
  let P1 := cb.setup_p1 alpha_ l1_ratio_
  let P2 := cb.setup_p2 alpha_ l1_ratio_
  let std := cb.standardize X sample_weight P1 P2
  let coef0 := cb.startCoef std.X sample_weight std.col_means std.col_stds
  let coef := cb.solve std.X sample_weight std.P1 std.P2 coef0
  let ic :=
    if fit_intercept then
      cb.unstandardize std.col_means std.col_stds (coef.getD 0 0) coef.tail
    else
      cb.unstandardize std.col_means std.col_stds 0 coef
  { s with
    col_means_ := std.col_means
    col_stds_ := std.col_stds
    coef_ := ic.2
    intercept_ := ic.1 }

/-- The post-dispatch estimator state: when the jobs run in-process
(sequential `joblib` backend), each `_fit_path` call assigns
`self.col_means_`/`self.col_stds_` to its fold's statistics (lines
602-611); the final refit then runs.  `foldStats` is the sequence of
per-fold statistics written by the jobs. -/
def fitStateAfter {M : Type} (cb : RefitCollab M) (fit_intercept : Bool)
    (X : M) (sample_weight : List ℚ) (alpha_ l1_ratio_ : ℚ)
    (foldStats : List (List ℚ × List ℚ)) (s0 : FitState) : FitState :=
  let afterJobs := foldStats.foldl
    (fun s p => { s with col_means_ := p.1, col_stds_ := p.2 }) s0
  finalRefit cb fit_intercept X sample_weight alpha_ l1_ratio_ afterJobs

/-- Helper: indexing a map over `List.range`. -/
theorem getD_map_range {β : Type} (n : ℕ) (f : ℕ → β) (d : β) {i : ℕ} (hi : i < n) :
    ((List.range n).map f).getD i d = f i := by
  rw [List.getD_eq_getElem?_getD, List.getElem?_map, List.getElem?_range hi]
  rfl

/-- Every nonempty list of rationals has a least element. -/
theorem exists_min_mem (xs : List ℚ) (h : xs ≠ []) : ∃ x ∈ xs, ∀ y ∈ xs, x ≤ y := by
  induction xs with
  | nil => exact absurd rfl h
  | cons a t ih =>
    rcases eq_or_ne t [] with rfl | ht
    · exact ⟨a, by simp⟩
    · obtain ⟨m, hm, hmin⟩ := ih ht
      rcases le_total a m with hle | hle
      · refine ⟨a, by simp, ?_⟩
        intro y hy
        rcases List.mem_cons.1 hy with rfl | hy
        · exact le_rfl
        · exact hle.trans (hmin y hy)
      · refine ⟨m, List.mem_cons_of_mem _ hm, ?_⟩
        intro y hy
        rcases List.mem_cons.1 hy with rfl | hy
        · exact hle
        · exact hmin y hy

theorem npArgmin_lt_length {xs : List ℚ} (h : xs ≠ []) : npArgmin xs < xs.length := by
  obtain ⟨m, hm, hmin⟩ := exists_min_mem xs h
  refine List.findIdx_lt_length_of_exists ⟨m, hm, ?_⟩
  simp only [List.all_eq_true, decide_eq_true_eq]
  exact fun y hy => hmin y hy

/-- The value at `npArgmin` is a lower bound for every member of the list. -/
theorem npArgmin_le_mem {xs : List ℚ} (h : xs ≠ []) {y : ℚ} (hy : y ∈ xs) :
    xs.getD (npArgmin xs) 0 ≤ y := by
  have hlt : npArgmin xs < xs.length := npArgmin_lt_length h
  have hp := @List.findIdx_getElem _ (fun x => xs.all fun y => decide (x ≤ y))
    xs hlt
  simp only [List.all_eq_true, decide_eq_true_eq] at hp
  rw [List.getD_eq_getElem xs 0 hlt]
  exact hp y hy

theorem npArgmin_le {xs : List ℚ} (h : xs ≠ []) {j : ℕ} (hj : j < xs.length) :
    xs.getD (npArgmin xs) 0 ≤ xs.getD j 0 := by
  rw [List.getD_eq_getElem xs 0 hj]
  exact npArgmin_le_mem h (List.getElem_mem hj)

/-- Strictly before the `npArgmin` index every entry is strictly larger:
`npArgmin` returns the first occurrence of the minimum. -/
theorem npArgmin_first {xs : List ℚ} (h : xs ≠ []) {j : ℕ} (hj : j < npArgmin xs) :
    xs.getD (npArgmin xs) 0 < xs.getD j 0 := by
  have hjlen : j < xs.length := hj.trans_le (List.findIdx_le_length _)
  have hfalse := List.not_of_lt_findIdx hj
  simp only [List.all_eq_false, decide_eq_false_iff_not, not_le] at hfalse
  obtain ⟨y, hy, hylt⟩ := hfalse
  have h1 : xs.getD (npArgmin xs) 0 ≤ y := npArgmin_le_mem h hy
  have h2 : y < xs[j] := by simpa using hylt
  rw [List.getD_eq_getElem xs 0 hjlen]
  exact h1.trans_lt h2

/-- Flattening a rectangular matrix: entry `l * A + a` of the flattened list
is entry `(l, a)` of the matrix. -/
theorem flatten2_getD {m : List (List ℚ)} {A : ℕ} (hA : ∀ r ∈ m, r.length = A)
    {l a : ℕ} (hl : l < m.length) (ha : a < A) :
    (flatten2 m).getD (l * A + a) 0 = ent2 m l a := by
  induction m generalizing l with
  | nil => exact absurd hl (by simp)
  | cons r t ih =>
    have hr : r.length = A := hA r (List.mem_cons_self r t)
    cases l with
    | zero =>
      simp only [flatten2, List.flatten_cons, ent2, List.getD_cons_zero, Nat.zero_mul,
        Nat.zero_add]
      exact List.getD_append _ _ _ _ (by omega)
    | succ l' =>
      have hstep : (l' + 1) * A + a = r.length + (l' * A + a) := by
        rw [hr]; ring
      simp only [flatten2, List.flatten_cons, ent2, List.getD_cons_succ]
      rw [hstep, List.getD_append_right _ _ _ _ (by omega), Nat.add_sub_cancel_left]
      exact ih (fun s hs => hA s (List.mem_cons_of_mem _ hs)) (by simpa using hl)

theorem flatten2_length {m : List (List ℚ)} {A : ℕ} (hA : ∀ r ∈ m, r.length = A) :
    (flatten2 m).length = m.length * A := by
  induction m with
  | nil => simp [flatten2]
  | cons r t ih =>
    have hr : r.length = A := hA r (List.mem_cons_self r t)
    have ht := ih (fun s hs => hA s (List.mem_cons_of_mem _ hs))
    simp only [flatten2, List.flatten_cons, List.length_append, List.length_cons] at ht ⊢
    rw [hr, ht]
    ring

theorem npMeanAxis0_length {ds : List (List (List ℚ))} (h : ds ≠ []) :
    (npMeanAxis0 ds).length = (ds.getD 0 []).length := by
  match ds with
  | d0 :: rest => simp [npMeanAxis0]

theorem npMeanAxis0_row_length {ds : List (List (List ℚ))} {A : ℕ}
    (hA : ∀ r ∈ ds.getD 0 [], r.length = A)
    {row : List ℚ} (hrow : row ∈ npMeanAxis0 ds) : row.length = A := by
  match ds with
  | [] => exact absurd hrow (by simp [npMeanAxis0])
  | d0 :: rest =>
    simp only [npMeanAxis0, List.mem_map, List.mem_range] at hrow
    obtain ⟨l, hl, rfl⟩ := hrow
    simp only [List.length_map, List.length_range]
    refine hA _ ?_
    have hd0 : (d0 :: rest : List (List (List ℚ))).getD 0 [] = d0 := rfl
    rw [hd0, List.getD_eq_getElem d0 [] (by simpa using hl)]
    exact List.getElem_mem _

/-- The entry `(l, a)` of the fold-averaged surface is the average over the
fold axis of the entries `(f, l, a)`. -/
theorem npMeanAxis0_ent {ds : List (List (List ℚ))} {K A : ℕ} (h : ds ≠ [])
    (hK : (ds.getD 0 []).length = K) (hA : ∀ r ∈ ds.getD 0 [], r.length = A)
    {l a : ℕ} (hl : l < K) (ha : a < A) :
    ent2 (npMeanAxis0 ds) l a = (ds.map fun d => ent2 d l a).sum / (ds.length : ℚ) := by
  match ds with
  | d0 :: rest =>
    have hd0 : (d0 :: rest : List (List (List ℚ))).getD 0 [] = d0 := rfl
    rw [hd0] at hK hA
    have hrowlen : (d0.getD l []).length = A := by
      refine hA _ ?_
      rw [List.getD_eq_getElem _ _ (by omega)]
      exact List.getElem_mem _
    simp only [npMeanAxis0, ent2]
    rw [getD_map_range _ _ _ (by omega)]
    rw [getD_map_range _ _ _ (by omega)]

/-- C1: for every fit with folds, l1 ratios and an alpha grid per l1 ratio,
the selected hyperparameters `(l1_ratio_, alpha_)` are the pair at the index
pair `(best_l1, best_alpha)` minimizing the fold-averaged deviance surface;
any pair strictly earlier in row-major order over l1_ratio then alpha is
strictly larger (flattened-argmin first-occurrence tie-breaking), and the
averaged surface is the fold-axis mean of `deviance_path_`. -/
theorem c1_flattened_argmin_selects_min
    (l1Ratios : List ℚ) (grid : List (List ℚ)) (dev : List (List (List ℚ)))
    (K A : ℕ) (hKpos : 0 < K) (hApos : 0 < A) (hFne : dev ≠ [])
    (hdevK : ∀ d ∈ dev, d.length = K)
    (hdevA : ∀ d ∈ dev, ∀ r ∈ d, r.length = A)
    (hK : l1Ratios.length = K) :
    (fitSelect l1Ratios grid dev).best_l1 < K ∧
    (fitSelect l1Ratios grid dev).best_alpha < A ∧
    (∀ l a, l < K → a < A →
      ent2 (npMeanAxis0 dev) (fitSelect l1Ratios grid dev).best_l1
          (fitSelect l1Ratios grid dev).best_alpha ≤
        ent2 (npMeanAxis0 dev) l a) ∧
    (∀ l a, l < K → a < A →
      l * A + a < (fitSelect l1Ratios grid dev).best_l1 * A +
          (fitSelect l1Ratios grid dev).best_alpha →
      ent2 (npMeanAxis0 dev) (fitSelect l1Ratios grid dev).best_l1
          (fitSelect l1Ratios grid dev).best_alpha <
        ent2 (npMeanAxis0 dev) l a) ∧
    (fitSelect l1Ratios grid dev).l1_ratio_ =
      l1Ratios.getD (fitSelect l1Ratios grid dev).best_l1 0 ∧
    (fitSelect l1Ratios grid dev).alpha_ =
      ent2 grid (fitSelect l1Ratios grid dev).best_l1
        (fitSelect l1Ratios grid dev).best_alpha ∧
    (∀ l a, l < K → a < A →
      ent2 (npMeanAxis0 dev) l a =
        (dev.map fun d => ent2 d l a).sum / (dev.length : ℚ)) := by
  have hdlen : 0 < dev.length := List.length_pos.mpr hFne
  have hd0mem : dev.getD 0 [] ∈ dev := by
    rw [List.getD_eq_getElem dev [] hdlen]
    exact List.getElem_mem _
  have hd0K : (dev.getD 0 []).length = K := hdevK _ hd0mem
  have hd0A : ∀ r ∈ dev.getD 0 [], r.length = A := hdevA _ hd0mem
  have havglen : (npMeanAxis0 dev).length = K := by
    rw [npMeanAxis0_length hFne, hd0K]
  have havgrows : ∀ row ∈ npMeanAxis0 dev, row.length = A := fun row hrow =>
    npMeanAxis0_row_length hd0A hrow
  have havgpos : 0 < (npMeanAxis0 dev).length := by omega
  have havg0mem : (npMeanAxis0 dev).getD 0 [] ∈ npMeanAxis0 dev := by
    rw [List.getD_eq_getElem _ [] havgpos]
    exact List.getElem_mem _
  have hA0 : ((npMeanAxis0 dev).getD 0 []).length = A := havgrows _ havg0mem
  have hflatlen : (flatten2 (npMeanAxis0 dev)).length = K * A := by
    rw [flatten2_length havgrows, havglen]
  have hflatne : flatten2 (npMeanAxis0 dev) ≠ [] := by
    refine List.length_pos.mp ?_
    rw [hflatlen]
    exact Nat.mul_pos hKpos hApos
  have hilt : npArgmin (flatten2 (npMeanAxis0 dev)) < K * A := by
    rw [← hflatlen]
    exact npArgmin_lt_length hflatne
  have hbl : (fitSelect l1Ratios grid dev).best_l1 =
      npArgmin (flatten2 (npMeanAxis0 dev)) / A := by
    have h0 : (fitSelect l1Ratios grid dev).best_l1 =
        npArgmin (flatten2 (npMeanAxis0 dev)) /
          ((npMeanAxis0 dev).getD 0 []).length := rfl
    rw [h0, hA0]
  have hba : (fitSelect l1Ratios grid dev).best_alpha =
      npArgmin (flatten2 (npMeanAxis0 dev)) % A := by
    have h0 : (fitSelect l1Ratios grid dev).best_alpha =
        npArgmin (flatten2 (npMeanAxis0 dev)) %
          ((npMeanAxis0 dev).getD 0 []).length := rfl
    rw [h0, hA0]
  have hblK : (fitSelect l1Ratios grid dev).best_l1 < K := by
    rw [hbl]
    exact (Nat.div_lt_iff_lt_mul hApos).mpr hilt
  have hbaA : (fitSelect l1Ratios grid dev).best_alpha < A := by
    rw [hba]
    exact Nat.mod_lt _ hApos
  have hsum : (fitSelect l1Ratios grid dev).best_l1 * A +
      (fitSelect l1Ratios grid dev).best_alpha =
      npArgmin (flatten2 (npMeanAxis0 dev)) := by
    rw [hbl, hba, Nat.mul_comm]
    exact Nat.div_add_mod _ A
  have hblavg : (fitSelect l1Ratios grid dev).best_l1 < (npMeanAxis0 dev).length := by
    omega
  have hbest_ent : ent2 (npMeanAxis0 dev) (fitSelect l1Ratios grid dev).best_l1
      (fitSelect l1Ratios grid dev).best_alpha =
      (flatten2 (npMeanAxis0 dev)).getD (npArgmin (flatten2 (npMeanAxis0 dev))) 0 := by
    have h := flatten2_getD havgrows hblavg hbaA
    rw [hsum] at h
    exact h.symm
  have hent_flat : ∀ l a, l < K → a < A →
      ent2 (npMeanAxis0 dev) l a = (flatten2 (npMeanAxis0 dev)).getD (l * A + a) 0 := by
    intro l a hl ha
    have hlavg : l < (npMeanAxis0 dev).length := by omega
    exact (flatten2_getD havgrows hlavg ha).symm
  have hidx : ∀ l a, l < K → a < A → l * A + a < K * A := by
    intro l a hl ha
    calc l * A + a < l * A + A := by omega
      _ = (l + 1) * A := by ring
      _ ≤ K * A := Nat.mul_le_mul_right A (by omega)
  refine ⟨hblK, hbaA, ?_, ?_, rfl, ?_, ?_⟩
  · intro l a hl ha
    rw [hbest_ent, hent_flat l a hl ha]
    exact npArgmin_le hflatne (by rw [hflatlen]; exact hidx l a hl ha)
  · intro l a hl ha hlt
    rw [hbest_ent, hent_flat l a hl ha]
    rw [hsum] at hlt
    exact npArgmin_first hflatne hlt
  · have halpha : (fitSelect l1Ratios grid dev).alpha_ =
        readAlpha (storeAlphas l1Ratios grid) l1Ratios.length
          (fitSelect l1Ratios grid dev).best_l1
          (fitSelect l1Ratios grid dev).best_alpha := rfl
    rcases Nat.lt_or_ge 1 K with h1K | h1K
    · have hne : l1Ratios.length ≠ 1 := by omega
      have hst : storeAlphas l1Ratios grid = StoredAlphas.twoDim grid := by
        simp only [storeAlphas, if_neg hne]
      rw [halpha, hst, hK]
      simp only [readAlpha, if_pos h1K]
    · have hK1 : K = 1 := by omega
      have heq : l1Ratios.length = 1 := by omega
      have hbl0 : (fitSelect l1Ratios grid dev).best_l1 = 0 := by omega
      have hst : storeAlphas l1Ratios grid = StoredAlphas.oneDim (grid.getD 0 []) := by
        simp only [storeAlphas, if_pos heq]
      have hnot : ¬(1 : ℕ) < 1 := by omega
      rw [halpha, hst, heq, hbl0]
      simp only [readAlpha, if_neg hnot, ent2]
  · intro l a hl ha
    exact npMeanAxis0_ent hFne hd0K hd0A hl ha

/-- Witness for C1 at a concrete input: one fold, two l1 ratios, two alphas;
the flattened argmin of the averaged surface is attained, the winning alpha
is read from the grid at the winning index pair, and the tied later minimum
is not chosen. -/
theorem c1_witness :
    (fitSelect [0, 1/2] [[5, 4], [3, 2]] [[[3, 1], [1, 2]]]).best_l1 < 2 ∧
    (fitSelect [0, 1/2] [[5, 4], [3, 2]] [[[3, 1], [1, 2]]]).best_alpha < 2 ∧
    (fitSelect [0, 1/2] [[5, 4], [3, 2]] [[[3, 1], [1, 2]]]).alpha_ =
      ent2 [[5, 4], [3, 2]]
        (fitSelect [0, 1/2] [[5, 4], [3, 2]] [[[3, 1], [1, 2]]]).best_l1
        (fitSelect [0, 1/2] [[5, 4], [3, 2]] [[[3, 1], [1, 2]]]).best_alpha := by
  have h := c1_flattened_argmin_selects_min [0, 1/2] [[5, 4], [3, 2]]
    [[[3, 1], [1, 2]]] 2 2 (by decide) (by decide) (by decide)
    (by decide) (by decide) (by decide)
  exact ⟨h.1, h.2.1, h.2.2.2.2.2.1⟩

/-- C4: when the caller supplies an explicit alphas list, the grid does not
depend on the automatic alpha-path generator (no alpha-max computation),
every row is the descending sort of the supplied list (a permutation of it,
sorted in descending order: used verbatim), the rows are duplicated
identically across every l1 ratio so the grid is rectangular, and in the
scenario alphas = [1, 1/10, 1/100] with a single l1 ratio the stored
`alphas_` equals [1, 1/10, 1/100] exactly. -/
theorem c4_explicit_alphas_verbatim
    (autoPath autoPath' : ℚ → List ℚ) (us : List ℚ) (l1Ratios : List ℚ) :
    buildAlphaGrid autoPath (some us) l1Ratios =
      buildAlphaGrid autoPath' (some us) l1Ratios ∧
    (∀ row ∈ buildAlphaGrid autoPath (some us) l1Ratios, row = sortDesc us) ∧
    (buildAlphaGrid autoPath (some us) l1Ratios).length = l1Ratios.length ∧
    (sortDesc us).Perm us ∧
    List.Sorted (· ≥ ·) (sortDesc us) ∧
    storeAlphas [3/10]
        (buildAlphaGrid autoPath (some [1, 1/10, 1/100]) [3/10]) =
      StoredAlphas.oneDim [1, 1/10, 1/100] := by
  refine ⟨rfl, ?_, by simp [buildAlphaGrid], ?_, ?_, ?_⟩
  · intro row hrow
    exact List.eq_of_mem_replicate hrow
  · exact (List.reverse_perm _).trans (List.perm_insertionSort _ us)
  · have hp : List.Sorted (· ≤ ·) (List.insertionSort (· ≤ ·) us) :=
      List.sorted_insertionSort _ us
    rw [sortDesc, List.Sorted, List.pairwise_reverse]
    exact hp.imp fun hab => hab
  · show storeAlphas [3/10] (List.replicate 1 (sortDesc [1, 1/10, 1/100])) =
      StoredAlphas.oneDim [1, 1/10, 1/100]
    norm_num [sortDesc, storeAlphas, List.insertionSort, List.orderedInsert]

/-- C10: with a single l1 ratio, the stored `alphas_` is the one-dimensional
first grid row (of length `n_alphas`) and `alpha_` is read as
`alphas_[best_alpha]`; with two or more l1 ratios the stored `alphas_` is
two-dimensional and `alpha_` is read as `alphas_[best_l1, best_alpha]`. -/
theorem c10_alphas_dimensionality
    (l1Ratios : List ℚ) (grid : List (List ℚ)) (dev : List (List (List ℚ)))
    (nAlphas : ℕ) (hrows : ∀ row ∈ grid, row.length = nAlphas)
    (hg : grid.length = l1Ratios.length) :
    (l1Ratios.length = 1 →
      storeAlphas l1Ratios grid = StoredAlphas.oneDim (grid.getD 0 []) ∧
      (grid.getD 0 []).length = nAlphas ∧
      (fitSelect l1Ratios grid dev).alpha_ =
        (grid.getD 0 []).getD (fitSelect l1Ratios grid dev).best_alpha 0) ∧
    (1 < l1Ratios.length →
      storeAlphas l1Ratios grid = StoredAlphas.twoDim grid ∧
      (fitSelect l1Ratios grid dev).alpha_ =
        ent2 grid (fitSelect l1Ratios grid dev).best_l1
          (fitSelect l1Ratios grid dev).best_alpha) := by
  constructor
  · intro h1
    have hgpos : 0 < grid.length := by omega
    have hmem : grid.getD 0 [] ∈ grid := by
      rw [List.getD_eq_getElem grid [] hgpos]
      exact List.getElem_mem _
    have hst : storeAlphas l1Ratios grid = StoredAlphas.oneDim (grid.getD 0 []) := by
      unfold storeAlphas
      rw [if_pos h1]
    refine ⟨hst, hrows _ hmem, ?_⟩
    have halpha : (fitSelect l1Ratios grid dev).alpha_ =
        readAlpha (storeAlphas l1Ratios grid) l1Ratios.length
          (fitSelect l1Ratios grid dev).best_l1
          (fitSelect l1Ratios grid dev).best_alpha := rfl
    rw [halpha, hst, h1]
    simp [readAlpha]
  · intro h1
    have hne : l1Ratios.length ≠ 1 := by omega
    have hst : storeAlphas l1Ratios grid = StoredAlphas.twoDim grid := by
      unfold storeAlphas
      rw [if_neg hne]
    refine ⟨hst, ?_⟩
    have halpha : (fitSelect l1Ratios grid dev).alpha_ =
        readAlpha (storeAlphas l1Ratios grid) l1Ratios.length
          (fitSelect l1Ratios grid dev).best_l1
          (fitSelect l1Ratios grid dev).best_alpha := rfl
    rw [halpha, hst]
    simp only [readAlpha, if_pos h1]

/-- Witness for C10 at concrete inputs for both the single- and the
multi-ratio branch. -/
theorem c10_witness :
    ((fitSelect [1/3] [[7, 6]] [[[1, 2]]]).alpha_ =
      ([7, 6] : List ℚ).getD (fitSelect [1/3] [[7, 6]] [[[1, 2]]]).best_alpha 0) ∧
    ((fitSelect [0, 1] [[7, 6], [5, 3]] [[[1, 2], [3, 4]]]).alpha_ =
      ent2 [[7, 6], [5, 3]]
        (fitSelect [0, 1] [[7, 6], [5, 3]] [[[1, 2], [3, 4]]]).best_l1
        (fitSelect [0, 1] [[7, 6], [5, 3]] [[[1, 2], [3, 4]]]).best_alpha) :=
  ⟨(((c10_alphas_dimensionality [1/3] [[7, 6]] [[[1, 2]]] 2 (by decide)
      (by decide)).1) (by decide)).2.2,
   (((c10_alphas_dimensionality [0, 1] [[7, 6], [5, 3]] [[[1, 2], [3, 4]]] 2
      (by decide) (by decide)).2) (by decide)).2⟩

theorem sum_map_div (v : List ℚ) (s : ℚ) : (v.map fun x => x / s).sum = v.sum / s := by
  induction v with
  | nil => simp
  | cons x t ih => simp [ih, add_div]

theorem sum_map_mul (c : ℚ) (v : List ℚ) : (v.map fun x => c * x).sum = c * v.sum := by
  induction v with
  | nil => simp
  | cons x t ih => simp [ih, mul_add]

/-- Normalized weights sum to one whenever the original sum is nonzero. -/
theorem normalizeW_sum (v : List ℚ) (h : v.sum ≠ 0) : (normalizeW v).sum = 1 := by
  unfold normalizeW
  rw [sum_map_div, div_self h]

/-- Normalization cancels a common nonzero factor. -/
theorem normalizeW_smul (c : ℚ) (hc : c ≠ 0) (v : List ℚ) :
    normalizeW (v.map fun x => c * x) = normalizeW v := by
  unfold normalizeW
  rw [sum_map_mul, List.map_map]
  refine List.map_congr_left ?_
  intro x _
  exact mul_div_mul_left x v.sum hc

/-- Slicing the scaled weight vector on the test indices gives the scaled
slice of the original vector. -/
theorem subsetW_scaleOnTest_test (w : List ℚ) (test_idx : List ℕ) (c : ℚ)
    (hb : ∀ i ∈ test_idx, i < w.length) :
    subsetW (scaleOnTest w test_idx c) test_idx =
      (subsetW w test_idx).map fun x => c * x := by
  unfold subsetW
  rw [List.map_map]
  refine List.map_congr_left ?_
  intro i hi
  simp only [Function.comp]
  unfold scaleOnTest
  rw [getD_map_range _ _ _ (hb i hi), if_pos hi]

/-- Slicing the scaled weight vector on indices disjoint from the test set
leaves the slice unchanged. -/
theorem subsetW_scaleOnTest_disjoint (w : List ℚ) (test_idx train_idx : List ℕ)
    (c : ℚ) (hb : ∀ i ∈ train_idx, i < w.length)
    (hdisj : ∀ i ∈ train_idx, i ∉ test_idx) :
    subsetW (scaleOnTest w test_idx c) train_idx = subsetW w train_idx := by
  unfold subsetW
  refine List.map_congr_left ?_
  intro i hi
  unfold scaleOnTest
  rw [getD_map_range _ _ _ (hb i hi), if_neg (hdisj i hi)]

/-- C3: for every fold and every positive scalar `c`, the held-out
deviances recorded by the path job are unchanged when all sample weights of
the fold's test partition are multiplied by `c`: the job divides the train
and test weights by their sums before solving and before evaluating
deviance, and each normalized slice sums to one whenever its raw sum is
nonzero. -/
theorem c3_deviance_invariant_test_weight_scaling
    (solvePath : List ℚ → List (List ℚ)) (deviance : List ℚ → List ℚ → ℚ)
    (w : List ℚ) (train_idx test_idx : List ℕ) (c : ℚ) (hc : 0 < c)
    (hdisj : ∀ i ∈ train_idx, i ∉ test_idx)
    (htr : ∀ i ∈ train_idx, i < w.length)
    (hte : ∀ i ∈ test_idx, i < w.length) :
    fitPathDeviances solvePath deviance (scaleOnTest w test_idx c)
        train_idx test_idx =
      fitPathDeviances solvePath deviance w train_idx test_idx ∧
    ((subsetW w test_idx).sum ≠ 0 → (normalizeW (subsetW w test_idx)).sum = 1) ∧
    ((subsetW w train_idx).sum ≠ 0 → (normalizeW (subsetW w train_idx)).sum = 1) := by
  refine ⟨?_, normalizeW_sum _, normalizeW_sum _⟩
  unfold fitPathDeviances
  rw [subsetW_scaleOnTest_disjoint w test_idx train_idx c htr hdisj,
    subsetW_scaleOnTest_test w test_idx c hte,
    normalizeW_smul c (ne_of_gt hc) (subsetW w test_idx)]

/-- Witness for C3: doubling the test-partition weights of a concrete fold
leaves the recorded deviances unchanged. -/
theorem c3_witness :
    fitPathDeviances (fun wt => [wt]) (fun cvec wtest => cvec.sum + wtest.sum)
        (scaleOnTest [1, 2, 3, 4] [2, 3] 2) [0, 1] [2, 3] =
      fitPathDeviances (fun wt => [wt]) (fun cvec wtest => cvec.sum + wtest.sum)
        [1, 2, 3, 4] [0, 1] [2, 3] :=
  (c3_deviance_invariant_test_weight_scaling (fun wt => [wt])
    (fun cvec wtest => cvec.sum + wtest.sum) [1, 2, 3, 4] [0, 1] [2, 3] 2
    (by decide) (by decide) (by decide) (by decide)).1

/-- Generic rectangular flatten indexing: entry `l * A + a` of the
concatenation is entry `a` of row `l`. -/
theorem flatten_getD_rect {γ : Type} (d : γ) {m : List (List γ)} {A : ℕ}
    (hA : ∀ r ∈ m, r.length = A) {l a : ℕ} (hl : l < m.length) (ha : a < A) :
    m.flatten.getD (l * A + a) d = (m.getD l []).getD a d := by
  induction m generalizing l with
  | nil => exact absurd hl (by simp)
  | cons r t ih =>
    have hr : r.length = A := hA r (List.mem_cons_self r t)
    cases l with
    | zero =>
      simp only [List.flatten_cons, List.getD_cons_zero, Nat.zero_mul, Nat.zero_add]
      exact List.getD_append _ _ _ _ (by omega)
    | succ l' =>
      have hstep : (l' + 1) * A + a = r.length + (l' * A + a) := by
        rw [hr]; ring
      simp only [List.flatten_cons, List.getD_cons_succ]
      rw [hstep, List.getD_append_right _ _ _ _ (by omega), Nat.add_sub_cancel_left]
      exact ih (fun s hs => hA s (List.mem_cons_of_mem _ hs)) (by simpa using hl)

theorem jobList_length {α β : Type} (folds : List α) (l1Ratios : List β) :
    (jobList folds l1Ratios).length = folds.length * l1Ratios.length := by
  unfold jobList
  induction folds with
  | nil => simp
  | cons fd t ih =>
    simp only [List.flatMap_cons, List.length_append, List.length_map,
      List.length_cons, ih]
    ring

/-- The job at position `f * K + l` of the job list is the pair of fold `f`
and l1 ratio `l`: folds are the outer generator loop. -/
theorem jobList_getD {α β : Type} (dα : α) (dβ : β) (folds : List α)
    (l1Ratios : List β) {f l : ℕ} (hf : f < folds.length)
    (hl : l < l1Ratios.length) :
    (jobList folds l1Ratios).getD (f * l1Ratios.length + l) (dα, dβ) =
      (folds.getD f dα, l1Ratios.getD l dβ) := by
  induction folds generalizing f with
  | nil => exact absurd hf (by simp)
  | cons fd t ih =>
    cases f with
    | zero =>
      simp only [jobList, List.flatMap_cons, Nat.zero_mul, Nat.zero_add,
        List.getD_cons_zero]
      rw [List.getD_append _ _ _ _ (by simpa using hl)]
      rw [List.getD_eq_getElem _ _ (by simpa using hl), List.getElem_map,
        List.getD_eq_getElem _ _ hl]
    | succ f' =>
      have hlen : (l1Ratios.map fun l1 => (fd, l1)).length = l1Ratios.length := by
        simp
      simp only [jobList, List.flatMap_cons, List.getD_cons_succ]
      rw [show (f' + 1) * l1Ratios.length + l =
          l1Ratios.length + (f' * l1Ratios.length + l) by ring]
      rw [List.getD_append_right _ _ _ _ (by omega)]
      rw [hlen, Nat.add_sub_cancel_left]
      exact ih (by simpa using hf)

theorem reshape3_ent (xs : List ℚ) (F K A : ℕ) {f l a : ℕ}
    (hf : f < F) (hl : l < K) (ha : a < A) :
    ent3 (reshape3 xs F K A) f l a = xs.getD ((f * K + l) * A + a) 0 := by
  unfold ent3 ent2 reshape3
  rw [getD_map_range _ _ _ hf, getD_map_range _ _ _ hl, getD_map_range _ _ _ ha]

theorem reshape3_shape (xs : List ℚ) (F K A : ℕ) :
    (reshape3 xs F K A).length = F ∧
    ∀ d ∈ reshape3 xs F K A, d.length = K ∧ ∀ r ∈ d, r.length = A := by
  refine ⟨by simp [reshape3], ?_⟩
  intro d hd
  simp only [reshape3, List.mem_map, List.mem_range] at hd
  obtain ⟨f, hf, rfl⟩ := hd
  refine ⟨by simp, ?_⟩
  intro r hr
  simp only [List.mem_map, List.mem_range] at hr
  obtain ⟨l, hl, rfl⟩ := hr
  simp

theorem reshape4_ent (xs : List ℚ) (F K A P : ℕ) {f l a p : ℕ}
    (hf : f < F) (hl : l < K) (ha : a < A) (hp : p < P) :
    ent4 (reshape4 xs F K A P) f l a p =
      xs.getD (((f * K + l) * A + a) * P + p) 0 := by
  unfold ent4 reshape4
  rw [getD_map_range _ _ _ hf, getD_map_range _ _ _ hl,
    getD_map_range _ _ _ ha, getD_map_range _ _ _ hp]

theorem reshape4_shape (xs : List ℚ) (F K A P : ℕ) :
    (reshape4 xs F K A P).length = F ∧
    ∀ d ∈ reshape4 xs F K A P, d.length = K ∧
      ∀ m ∈ d, m.length = A ∧ ∀ r ∈ m, r.length = P := by
  refine ⟨by simp [reshape4], ?_⟩
  intro d hd
  simp only [reshape4, List.mem_map, List.mem_range] at hd
  obtain ⟨f, hf, rfl⟩ := hd
  refine ⟨by simp, ?_⟩
  intro m hm
  simp only [List.mem_map, List.mem_range] at hm
  obtain ⟨l, hl, rfl⟩ := hm
  refine ⟨by simp, ?_⟩
  intro r hr
  simp only [List.mem_map, List.mem_range] at hr
  obtain ⟨a, ha, rfl⟩ := hr
  simp

/-- C9: the collected per-job results are reshaped so that
`deviance_path_` has shape `(n_folds, n_l1_ratios, n_alphas)` and
`coef_path_` has shape `(n_folds, n_l1_ratios, n_alphas, n_features)`;
for both arrays the entry at `(f, l, a[, p])` comes from the job for fold
`f` and l1 ratio `l` of the job list built as the Cartesian product of
folds (outer) and l1 ratios (inner), at alpha index `a` (and feature
index `p`). -/
theorem c9_reshaped_by_position {α β : Type} (folds : List α)
    (l1Ratios : List β) (runJob : α × β → List ℚ)
    (runJobCoef : α × β → List (List ℚ)) (F K A P : ℕ)
    (hF : folds.length = F) (hK : l1Ratios.length = K)
    (hlen : ∀ jb ∈ jobList folds l1Ratios, (runJob jb).length = A)
    (hclen : ∀ jb ∈ jobList folds l1Ratios, (runJobCoef jb).length = A)
    (hcrow : ∀ jb ∈ jobList folds l1Ratios, ∀ r ∈ runJobCoef jb, r.length = P) :
    (jobList folds l1Ratios).length = F * K ∧
    (deviancePath folds l1Ratios runJob A).length = F ∧
    (∀ d ∈ deviancePath folds l1Ratios runJob A,
      d.length = K ∧ ∀ r ∈ d, r.length = A) ∧
    (∀ f l a (dα : α) (dβ : β), f < F → l < K → a < A →
      ent3 (deviancePath folds l1Ratios runJob A) f l a =
        (runJob (folds.getD f dα, l1Ratios.getD l dβ)).getD a 0) ∧
    (coefPath folds l1Ratios runJobCoef A P).length = F ∧
    (∀ d ∈ coefPath folds l1Ratios runJobCoef A P,
      d.length = K ∧ ∀ m ∈ d, m.length = A ∧ ∀ r ∈ m, r.length = P) ∧
    (∀ f l a p (dα : α) (dβ : β), f < F → l < K → a < A → p < P →
      ent4 (coefPath folds l1Ratios runJobCoef A P) f l a p =
        ((runJobCoef (folds.getD f dα, l1Ratios.getD l dβ)).getD a []).getD p 0) := by
  subst hF hK
  have hjidx : ∀ {f l : ℕ}, f < folds.length → l < l1Ratios.length →
      f * l1Ratios.length + l < (jobList folds l1Ratios).length := by
    intro f l hf hl
    rw [jobList_length]
    calc f * l1Ratios.length + l < f * l1Ratios.length + l1Ratios.length := by omega
      _ = (f + 1) * l1Ratios.length := by ring
      _ ≤ folds.length * l1Ratios.length := Nat.mul_le_mul_right _ (by omega)
  refine ⟨by rw [jobList_length], (reshape3_shape _ _ _ _).1,
    (reshape3_shape _ _ _ _).2, ?_, (reshape4_shape _ _ _ _ _).1,
    (reshape4_shape _ _ _ _ _).2, ?_⟩
  · intro f l a dα dβ hf hl ha
    unfold deviancePath
    rw [reshape3_ent _ _ _ _ hf hl ha]
    have hrows : ∀ r ∈ (jobList folds l1Ratios).map runJob, r.length = A := by
      intro r hr
      obtain ⟨jb, hjb, rfl⟩ := List.mem_map.1 hr
      exact hlen jb hjb
    have hmlt : f * l1Ratios.length + l <
        ((jobList folds l1Ratios).map runJob).length := by
      rw [List.length_map]
      exact hjidx hf hl
    rw [flatten_getD_rect 0 hrows hmlt ha]
    have hmap : ((jobList folds l1Ratios).map runJob).getD
        (f * l1Ratios.length + l) [] =
        runJob ((jobList folds l1Ratios).getD (f * l1Ratios.length + l) (dα, dβ)) := by
      rw [List.getD_eq_getElem _ _ hmlt, List.getD_eq_getElem _ _ (hjidx hf hl),
        List.getElem_map]
    rw [hmap, jobList_getD dα dβ folds l1Ratios hf hl]
  · intro f l a p dα dβ hf hl ha hp
    unfold coefPath
    rw [reshape4_ent _ _ _ _ _ hf hl ha hp]
    have houter : ∀ r ∈ ((jobList folds l1Ratios).map runJobCoef).map
        (fun m => m.flatten), r.length = A * P := by
      intro r hr
      obtain ⟨m, hm, rfl⟩ := List.mem_map.1 hr
      obtain ⟨jb, hjb, rfl⟩ := List.mem_map.1 hm
      have h2 := flatten2_length (hcrow jb hjb)
      rw [hclen jb hjb] at h2
      simpa [flatten2] using h2
    have hmlt : f * l1Ratios.length + l <
        (((jobList folds l1Ratios).map runJobCoef).map
          fun m => m.flatten).length := by
      simp only [List.length_map]
      exact hjidx hf hl
    have hsub : a * P + p < A * P := by
      calc a * P + p < a * P + P := by omega
        _ = (a + 1) * P := by ring
        _ ≤ A * P := Nat.mul_le_mul_right _ (by omega)
    rw [show ((f * l1Ratios.length + l) * A + a) * P + p =
        (f * l1Ratios.length + l) * (A * P) + (a * P + p) by ring]
    rw [flatten_getD_rect 0 houter hmlt hsub]
    have hmap2 : (((jobList folds l1Ratios).map runJobCoef).map
        (fun m => m.flatten)).getD (f * l1Ratios.length + l) [] =
        (runJobCoef ((jobList folds l1Ratios).getD
          (f * l1Ratios.length + l) (dα, dβ))).flatten := by
      rw [List.getD_eq_getElem _ _ hmlt, List.getD_eq_getElem _ _ (hjidx hf hl),
        List.getElem_map, List.getElem_map]
    rw [hmap2, jobList_getD dα dβ folds l1Ratios hf hl]
    have hjb_mem : (folds.getD f dα, l1Ratios.getD l dβ) ∈
        jobList folds l1Ratios := by
      rw [← jobList_getD dα dβ folds l1Ratios hf hl,
        List.getD_eq_getElem _ _ (hjidx hf hl)]
      exact List.getElem_mem _
    have hA2 : a < (runJobCoef (folds.getD f dα, l1Ratios.getD l dβ)).length := by
      rw [hclen _ hjb_mem]
      exact ha
    rw [flatten_getD_rect 0 (hcrow _ hjb_mem) hA2 hp]

/-- Witness for C9 at the spec scenario shape: five folds, three l1 ratios,
ten alphas, four features. -/
theorem c9_witness :
    (deviancePath (List.range 5) ([0, 1/2, 1] : List ℚ)
        (fun _ => List.replicate 10 (0 : ℚ)) 10).length = 5 ∧
    ent3 (deviancePath (List.range 5) ([0, 1/2, 1] : List ℚ)
        (fun _ => List.replicate 10 (0 : ℚ)) 10) 4 2 9 =
      (List.replicate 10 (0 : ℚ)).getD 9 0 ∧
    (coefPath (List.range 5) ([0, 1/2, 1] : List ℚ)
        (fun _ => List.replicate 10 (List.replicate 4 (0 : ℚ))) 10 4).length = 5 ∧
    ent4 (coefPath (List.range 5) ([0, 1/2, 1] : List ℚ)
        (fun _ => List.replicate 10 (List.replicate 4 (0 : ℚ))) 10 4) 4 2 9 3 =
      ((List.replicate 10 (List.replicate 4 (0 : ℚ))).getD 9 []).getD 3 0 := by
  have h := c9_reshaped_by_position (List.range 5) ([0, 1/2, 1] : List ℚ)
    (fun _ => List.replicate 10 (0 : ℚ))
    (fun _ => List.replicate 10 (List.replicate 4 (0 : ℚ))) 5 3 10 4
    (by decide) (by decide) (fun _ _ => rfl) (fun _ _ => rfl)
    (fun _ _ r hr => by rw [List.eq_of_mem_replicate hr]; rfl)
  exact ⟨h.2.1, h.2.2.2.1 4 2 9 0 0 (by decide) (by decide) (by decide),
    h.2.2.2.2.1,
    h.2.2.2.2.2.2 4 2 9 3 0 0 (by decide) (by decide) (by decide) (by decide)⟩

/-- Whatever the completion order, the executor returns the results in
submission order: the collected list is the map of the job function over
the submission indices. -/
theorem parallelRun_eq_map {R : Type} (njobs : ℕ) (runJob : ℕ → R) (d : R)
    (order : List ℕ) (h : order.Perm (List.range njobs)) :
    parallelRun njobs runJob order d = (List.range njobs).map runJob := by
  unfold parallelRun
  refine List.map_congr_left ?_
  intro i hi
  have hmem : i ∈ order := h.mem_iff.mpr hi
  have hex : ∃ p ∈ order.map fun j => (j, runJob j), decide (p.1 = i) = true :=
    ⟨(i, runJob i), List.mem_map_of_mem _ hmem, by simp⟩
  have hsome : ((order.map fun j => (j, runJob j)).find? fun p =>
      decide (p.1 = i)).isSome = true := List.find?_isSome.mpr hex
  obtain ⟨p, hp⟩ := Option.isSome_iff_exists.mp hsome
  have hpred := List.find?_some hp
  have hpmem := List.mem_of_find?_eq_some hp
  obtain ⟨j, _, rfl⟩ := List.mem_map.1 hpmem
  have hj : j = i := by simpa using hpred
  subst hj
  rw [hp]
  rfl

/-- C8: the result of the parallel phase does not depend on the order in
which the jobs complete — for any two completion orders the collected list
(and hence any value computed from it, such as the selected `alpha_`,
`l1_ratio_` and the refit `coef_`) is identical, because the executor
reassembles results by submission index, never by arrival order.  Repeated
calls with identical inputs agree because the collected list equals the
map of the job function over the submission order, a pure function of the
inputs. -/
theorem c8_completion_order_irrelevant {R O : Type} (njobs : ℕ)
    (runJob : ℕ → R) (d : R) (o1 o2 : List ℕ)
    (h1 : o1.Perm (List.range njobs)) (h2 : o2.Perm (List.range njobs))
    (collect : List R → O) :
    parallelRun njobs runJob o1 d = (List.range njobs).map runJob ∧
    parallelRun njobs runJob o1 d = parallelRun njobs runJob o2 d ∧
    collect (parallelRun njobs runJob o1 d) =
      collect (parallelRun njobs runJob o2 d) := by
  have e1 := parallelRun_eq_map njobs runJob d o1 h1
  have e2 := parallelRun_eq_map njobs runJob d o2 h2
  exact ⟨e1, e1.trans e2.symm, by rw [e1, e2]⟩

/-- Witness for C8: three jobs completing in two different orders yield the
same collected results. -/
theorem c8_witness :
    parallelRun 3 (fun i => [(i : ℚ)]) [2, 0, 1] [] =
      parallelRun 3 (fun i => [(i : ℚ)]) [1, 2, 0] [] :=
  (c8_completion_order_irrelevant 3 (fun i => [(i : ℚ)]) [] [2, 0, 1] [1, 2, 0]
    (by decide) (by decide) id).2.1

/-- With `check_input` on and a non-string, non-positive-semidefinite P2,
a job raises: it does not complete, its trace contains the raise, and it
contains no solver event. -/
theorem jobEvents_raise (cfg : FitConfig) (j : ℕ)
    (hchk : cfg.check_input = true) (hstr : cfg.p2IsString = false)
    (hpsd : cfg.p2PosSemidef = false) :
    (jobEvents cfg j).2 = false ∧
    FitEvent.raiseValueError ∈ (jobEvents cfg j).1 ∧
    (∀ i, FitEvent.jobSolve i ∉ (jobEvents cfg j).1) ∧
    FitEvent.finalSolve ∉ (jobEvents cfg j).1 := by
  unfold jobEvents
  rw [hchk, hstr, hpsd]
  by_cases hw : ((subsetW cfg.sample_weight
      (cfg.folds.getD (j / cfg.l1Ratios.length) ([], [])).1).sum = 0 ∨
    (subsetW cfg.sample_weight
      (cfg.folds.getD (j / cfg.l1Ratios.length) ([], [])).2).sum = 0)
  · simp [hw]
  · simp [hw]

/-- When the P2 check cannot fire (checking off, a string P2, or a
positive-semidefinite P2), a job completes: no raise, the solve event of
that job is reached, and a zero train-or-test weight sum produces the
in-job division-by-zero-sum event. -/
theorem jobEvents_complete (cfg : FitConfig) (j : ℕ)
    (hnr : cfg.check_input = false ∨ cfg.p2IsString = true ∨
      cfg.p2PosSemidef = true) :
    (jobEvents cfg j).2 = true ∧
    FitEvent.raiseValueError ∉ (jobEvents cfg j).1 ∧
    FitEvent.finalSolve ∉ (jobEvents cfg j).1 ∧
    (((subsetW cfg.sample_weight
        (cfg.folds.getD (j / cfg.l1Ratios.length) ([], [])).1).sum = 0 ∨
      (subsetW cfg.sample_weight
        (cfg.folds.getD (j / cfg.l1Ratios.length) ([], [])).2).sum = 0) →
      FitEvent.jobDivideByZeroWeightSum j ∈ (jobEvents cfg j).1) := by
  have hcond : (cfg.check_input && !cfg.p2IsString && !cfg.p2PosSemidef) = false := by
    rcases hnr with h | h | h <;> simp [h]
  unfold jobEvents
  rw [hcond]
  by_cases hw : ((subsetW cfg.sample_weight
      (cfg.folds.getD (j / cfg.l1Ratios.length) ([], [])).1).sum = 0 ∨
    (subsetW cfg.sample_weight
      (cfg.folds.getD (j / cfg.l1Ratios.length) ([], [])).2).sum = 0)
  · simp [hw]
  · simp [hw]

theorem runJobs_cons_true {cfg : FitConfig} {j : ℕ} {rest : List ℕ}
    (h : (jobEvents cfg j).2 = true) :
    runJobs cfg (j :: rest) = (jobEvents cfg j).1 ++ runJobs cfg rest := by
  simp [runJobs, h]

theorem runJobs_cons_false {cfg : FitConfig} {j : ℕ} {rest : List ℕ}
    (h : (jobEvents cfg j).2 = false) :
    runJobs cfg (j :: rest) = (jobEvents cfg j).1 := by
  simp [runJobs, h]

/-- When every job completes, no raise appears anywhere in the run. -/
theorem runJobs_no_raise (cfg : FitConfig)
    (hnr : cfg.check_input = false ∨ cfg.p2IsString = true ∨
      cfg.p2PosSemidef = true) (js : List ℕ) :
    FitEvent.raiseValueError ∉ runJobs cfg js := by
  induction js with
  | nil => simp [runJobs]
  | cons j rest ih =>
    have h := jobEvents_complete cfg j hnr
    rw [runJobs_cons_true h.1]
    intro hmem
    rcases List.mem_append.1 hmem with hm | hm
    · exact h.2.1 hm
    · exact ih hm

/-- When every job completes and job `j` is in the run, its
division-by-zero-weight-sum event (if its fold has one) appears in the
run's trace. -/
theorem runJobs_mem_div (cfg : FitConfig)
    (hnr : cfg.check_input = false ∨ cfg.p2IsString = true ∨
      cfg.p2PosSemidef = true) (j : ℕ)
    (hw : (subsetW cfg.sample_weight
        (cfg.folds.getD (j / cfg.l1Ratios.length) ([], [])).1).sum = 0 ∨
      (subsetW cfg.sample_weight
        (cfg.folds.getD (j / cfg.l1Ratios.length) ([], [])).2).sum = 0)
    (js : List ℕ) (hj : j ∈ js) :
    FitEvent.jobDivideByZeroWeightSum j ∈ runJobs cfg js := by
  induction js with
  | nil => exact absurd hj (by simp)
  | cons k rest ih =>
    have hk := jobEvents_complete cfg k hnr
    rw [runJobs_cons_true hk.1]
    rcases List.mem_cons.1 hj with rfl | hj
    · exact List.mem_append_left _ ((jobEvents_complete cfg j hnr).2.2.2 hw)
    · exact List.mem_append_right _ (ih hj)

/-- C6: an l1 ratio outside [0, 1], or an explicitly supplied alphas list
with a negative entry, raises ValueError at the very start of `fit`: the
trace is exactly the validation followed by the raise, with no data
preparation, no alpha-path computation, no dispatch, no solving and no
state-writing stage. -/
theorem c6_invalid_hyperparameters_raise_first (cfg : FitConfig)
    (h : (∃ l1 ∈ cfg.l1Ratios, l1 < 0 ∨ 1 < l1) ∨
      (∃ us, cfg.userAlphas = some us ∧ ∃ a ∈ us, a < 0)) :
    fitEvents cfg = [FitEvent.validateHyper, FitEvent.raiseValueError] ∧
    FitEvent.setupArgs ∉ fitEvents cfg ∧
    FitEvent.computeAlphaGrid ∉ fitEvents cfg ∧
    FitEvent.dispatch ∉ fitEvents cfg ∧
    (∀ j, FitEvent.jobSolve j ∉ fitEvents cfg) ∧
    FitEvent.finalSolve ∉ fitEvents cfg := by
  have hbad : hyperparametersInvalid cfg = true := by
    unfold hyperparametersInvalid
    rcases h with ⟨l1, hl1, hcase⟩ | ⟨us, hus, a, ha, haneg⟩
    · simp only [Bool.or_eq_true, List.any_eq_true]
      right
      refine ⟨l1, hl1, ?_⟩
      rcases hcase with hc | hc <;> simp [hc]
    · rw [hus]
      simp only [Bool.or_eq_true, List.any_eq_true]
      left
      exact ⟨a, ha, by simp [haneg]⟩
  have htr : fitEvents cfg = [FitEvent.validateHyper, FitEvent.raiseValueError] := by
    simp [fitEvents, hbad]
  refine ⟨htr, ?_, ?_, ?_, ?_, ?_⟩ <;> rw [htr] <;> simp

/-- Witness for C6: a configuration with l1 ratio 2 validates and raises
immediately, with no dispatch. -/
theorem c6_witness :
    fitEvents c6cfg = [FitEvent.validateHyper, FitEvent.raiseValueError] ∧
    FitEvent.dispatch ∉ fitEvents c6cfg := by
  have h := c6_invalid_hyperparameters_raise_first c6cfg
    (Or.inl (by decide))
  exact ⟨h.1, h.2.2.2.1⟩

/-- The trace of `fit` at the configuration `c5cfg`, computed. -/
theorem c5cfg_events :
    fitEvents c5cfg =
      [FitEvent.validateHyper, FitEvent.setupArgs, FitEvent.computeAlphaGrid,
       FitEvent.dispatch, FitEvent.jobStart 0, FitEvent.jobStandardize 0,
       FitEvent.jobStartCoef 0, FitEvent.raiseValueError] := by
  norm_num [fitEvents, hyperparametersInvalid, c5cfg, runJobs, jobEvents,
    subsetW, List.range_succ]

/-- Counterexample for C5 as stated: at a concrete configuration with
`check_input=True` and an indefinite non-string P2, the trace dispatches
the parallel jobs strictly before the ValueError is raised — the
positive-semidefiniteness validation is not performed centrally before
dispatch, so parallel work can be under way when it fires. -/
theorem c5_counterexample :
    FitEvent.dispatch ∈ fitEvents c5cfg ∧
    FitEvent.raiseValueError ∈ fitEvents c5cfg ∧
    evIdx (fitEvents c5cfg) FitEvent.dispatch <
      evIdx (fitEvents c5cfg) FitEvent.raiseValueError := by
  rw [c5cfg_events]
  decide

/-- C5 (amended): with `check_input=True` and a non-string P2 that is not
positive semidefinite, fitting raises a ValueError and no solver iteration
ever runs (no path solve and no final solve); but the check runs inside
each dispatched job — after standardization and start-coefficient
computation — not centrally before dispatch: the trace dispatches first
and the raise occurs strictly afterwards. -/
theorem c5_psd_raise_inside_job_before_solve (cfg : FitConfig)
    (hvalid : hyperparametersInvalid cfg = false)
    (hchk : cfg.check_input = true) (hstr : cfg.p2IsString = false)
    (hpsd : cfg.p2PosSemidef = false)
    (hfolds : cfg.folds ≠ []) (hl1 : cfg.l1Ratios ≠ []) :
    FitEvent.raiseValueError ∈ fitEvents cfg ∧
    (∀ j, FitEvent.jobSolve j ∉ fitEvents cfg) ∧
    FitEvent.finalSolve ∉ fitEvents cfg ∧
    (∃ post, fitEvents cfg =
        [FitEvent.validateHyper, FitEvent.setupArgs, FitEvent.computeAlphaGrid,
          FitEvent.dispatch] ++ post ∧
      FitEvent.raiseValueError ∈ post) := by
  have hn : 0 < cfg.folds.length * cfg.l1Ratios.length :=
    Nat.mul_pos (List.length_pos.mpr hfolds) (List.length_pos.mpr hl1)
  obtain ⟨m, hm⟩ : ∃ m, cfg.folds.length * cfg.l1Ratios.length = m + 1 :=
    ⟨cfg.folds.length * cfg.l1Ratios.length - 1, by omega⟩
  have h0 := jobEvents_raise cfg 0 hchk hstr hpsd
  have hrange : List.range (cfg.folds.length * cfg.l1Ratios.length) =
      0 :: (List.range m).map (· + 1) := by
    rw [hm, List.range_succ_eq_map]
  have hrun : runJobs cfg (List.range (cfg.folds.length * cfg.l1Ratios.length)) =
      (jobEvents cfg 0).1 := by
    rw [hrange, runJobs_cons_false h0.1]
  have hfe : fitEvents cfg =
      [FitEvent.validateHyper, FitEvent.setupArgs, FitEvent.computeAlphaGrid,
        FitEvent.dispatch] ++ (jobEvents cfg 0).1 := by
    simp only [fitEvents, hvalid, Bool.false_eq_true, if_false]
    rw [hrun]
  refine ⟨?_, ?_, ?_, (jobEvents cfg 0).1, hfe, h0.2.1⟩
  · rw [hfe]
    exact List.mem_append_right _ h0.2.1
  · intro j
    rw [hfe]
    intro hmem
    rcases List.mem_append.1 hmem with hm' | hm'
    · simp at hm'
    · exact h0.2.2.1 j hm'
  · rw [hfe]
    intro hmem
    rcases List.mem_append.1 hmem with hm' | hm'
    · simp at hm'
    · exact h0.2.2.2 hm'

/-- Witness for C5 (amended) at the concrete configuration. -/
theorem c5_witness :
    FitEvent.raiseValueError ∈ fitEvents c5cfg ∧
    FitEvent.finalSolve ∉ fitEvents c5cfg := by
  have h := c5_psd_raise_inside_job_before_solve c5cfg (by decide) rfl rfl rfl
    (by decide) (by decide)
  exact ⟨h.1, h.2.2.1⟩

/-- The trace of `fit` at the configuration `c7cfg`, computed. -/
theorem c7cfg_events :
    fitEvents c7cfg =
      [FitEvent.validateHyper, FitEvent.setupArgs, FitEvent.computeAlphaGrid,
       FitEvent.dispatch, FitEvent.jobStart 0,
       FitEvent.jobDivideByZeroWeightSum 0, FitEvent.jobStandardize 0,
       FitEvent.jobStartCoef 0, FitEvent.jobSolve 0, FitEvent.collectReshape,
       FitEvent.selectBest, FitEvent.finalStandardize, FitEvent.finalSolve] := by
  norm_num [fitEvents, hyperparametersInvalid, c7cfg, runJobs, jobEvents,
    subsetW, List.range_succ]

/-- Counterexample for C7 as stated: at a concrete configuration whose
single fold has a zero total train weight, `fit` raises no configuration
error at all — the jobs are dispatched and the job divides by the zero
weight sum inside the job (strictly after dispatch), instead of the
claimed pre-dispatch fatal error. -/
theorem c7_counterexample :
    FitEvent.raiseValueError ∉ fitEvents c7cfg ∧
    FitEvent.dispatch ∈ fitEvents c7cfg ∧
    FitEvent.jobDivideByZeroWeightSum 0 ∈ fitEvents c7cfg ∧
    evIdx (fitEvents c7cfg) FitEvent.dispatch <
      evIdx (fitEvents c7cfg) (FitEvent.jobDivideByZeroWeightSum 0) := by
  rw [c7cfg_events]
  decide

/-- C7 (amended): a fold whose train or test partition has zero total
sample weight is not detected before dispatch and raises no configuration
error: the run proceeds past dispatch and the zero weight sum is divided
by inside the dispatched job. -/
theorem c7_zero_weight_fold_not_predispatch (cfg : FitConfig) (j : ℕ)
    (hvalid : hyperparametersInvalid cfg = false)
    (hnr : cfg.check_input = false ∨ cfg.p2IsString = true ∨
      cfg.p2PosSemidef = true)
    (hj : j < cfg.folds.length * cfg.l1Ratios.length)
    (hw : (subsetW cfg.sample_weight
        (cfg.folds.getD (j / cfg.l1Ratios.length) ([], [])).1).sum = 0 ∨
      (subsetW cfg.sample_weight
        (cfg.folds.getD (j / cfg.l1Ratios.length) ([], [])).2).sum = 0) :
    FitEvent.raiseValueError ∉ fitEvents cfg ∧
    (∃ post, fitEvents cfg =
        [FitEvent.validateHyper, FitEvent.setupArgs, FitEvent.computeAlphaGrid,
          FitEvent.dispatch] ++ post ∧
      FitEvent.jobDivideByZeroWeightSum j ∈ post) := by
  have hfe : fitEvents cfg =
      [FitEvent.validateHyper, FitEvent.setupArgs, FitEvent.computeAlphaGrid,
        FitEvent.dispatch] ++
        runJobs cfg (List.range (cfg.folds.length * cfg.l1Ratios.length)) := by
    simp only [fitEvents, hvalid, Bool.false_eq_true, if_false]
  constructor
  · rw [hfe]
    intro hmem
    rcases List.mem_append.1 hmem with hm | hm
    · simp at hm
    · exact runJobs_no_raise cfg hnr _ hm
  · exact ⟨runJobs cfg (List.range (cfg.folds.length * cfg.l1Ratios.length)),
      hfe, runJobs_mem_div cfg hnr j hw _ (List.mem_range.mpr hj)⟩

/-- Witness for C7 (amended) at the concrete configuration. -/
theorem c7_witness :
    FitEvent.raiseValueError ∉ fitEvents c7cfg := by
  have h := c7_zero_weight_fold_not_predispatch c7cfg 0 (by decide)
    (Or.inr (Or.inr rfl)) (by decide)
    (Or.inl (by norm_num [c7cfg, subsetW]))
  exact h.1

/-- C2: after cross-validation selection the estimator rebuilds P1 and P2
at the winning `(alpha_, l1_ratio_)`, standardizes the full dataset (the
same `X` and `sample_weight` that `fit` received — all samples, not a
fold), solves once more, and unstandardizes that solution into the reported
`coef_` and `intercept_`; the persisted `col_means_`/`col_stds_` are the
statistics of this final full-data standardize call — for every sequence of
fold statistics the in-process jobs may have written and every prior
state, those are overwritten. -/
theorem c2_final_refit_full_data {M : Type} (cb : RefitCollab M) (fi : Bool)
    (X : M) (w : List ℚ) (alpha_ l1_ratio_ : ℚ)
    (foldStats foldStats' : List (List ℚ × List ℚ)) (s0 s0' : FitState) :
    let std := cb.standardize X w (cb.setup_p1 alpha_ l1_ratio_)
      (cb.setup_p2 alpha_ l1_ratio_)
    let coef := cb.solve std.X w std.P1 std.P2
      (cb.startCoef std.X w std.col_means std.col_stds)
    let ic := if fi then cb.unstandardize std.col_means std.col_stds
        (coef.getD 0 0) coef.tail
      else cb.unstandardize std.col_means std.col_stds 0 coef
    (fitStateAfter cb fi X w alpha_ l1_ratio_ foldStats s0).col_means_ =
      std.col_means ∧
    (fitStateAfter cb fi X w alpha_ l1_ratio_ foldStats s0).col_stds_ =
      std.col_stds ∧
    (fitStateAfter cb fi X w alpha_ l1_ratio_ foldStats s0).coef_ = ic.2 ∧
    (fitStateAfter cb fi X w alpha_ l1_ratio_ foldStats s0).intercept_ = ic.1 ∧
    fitStateAfter cb fi X w alpha_ l1_ratio_ foldStats s0 =
      fitStateAfter cb fi X w alpha_ l1_ratio_ foldStats' s0' := by
  intro std coef ic
  exact ⟨rfl, rfl, rfl, rfl, rfl⟩

end GlumCV
